import Mathlib

/-!
Verification of the GiveLit literature-radar pipeline.

Strings are modelled as `List Char`, Python floats as `ℚ`, and UTC
datetimes as integer epoch seconds.  Python's `round(x, 2)` (round half
to even) is modelled exactly on `ℚ`.  Sources: `src/givelit/relevance.py`,
`src/givelit/models.py`, `src/givelit/reporting.py`, `src/givelit/cli.py`
and `src/givelit/fetcher.py`.
-/

namespace GiveLit

/-! ## Python string primitives -/

/-- Python `str.lower()` (ASCII scope, as exercised by the code). -/
def lower (s : List Char) : List Char := s.map Char.toLower

/-- Python `str.strip()`: drop leading and trailing whitespace. -/
def strip (s : List Char) : List Char :=
  ((s.dropWhile Char.isWhitespace).reverse.dropWhile Char.isWhitespace).reverse

/-- Scanner for `str.count`: left-to-right, non-overlapping; on a match the
scan restarts after the matched block.  The fuel argument only bounds the
recursion (each step consumes at least one character of `s`). -/
def countAux : Nat → List Char → List Char → Nat
  | 0, _, _ => 0
  | fuel + 1, pat, s =>
    match s with
    | [] => 0
    | _ :: rest =>
      if pat.isPrefixOf s then 1 + countAux fuel pat (s.drop pat.length)
      else countAux fuel pat rest

/-- Python `s.count(pat)`: the number of non-overlapping occurrences of
`pat` in `s` (for the empty pattern Python returns `len(s) + 1`). -/
def countSub (s pat : List Char) : Nat :=
  if pat.isEmpty then s.length + 1 else countAux (s.length + 1) pat s

/-! ## Rounding: Python's round(x, 2) on ℚ -/

/-- Python `round` to the nearest integer, halves to the even neighbour.
Written with `Rat.floor` so that the kernel can evaluate it. -/
def pyRound (q : ℚ) : ℤ :=
  if q - q.floor < 1 / 2 then q.floor
  else if 1 / 2 < q - q.floor then q.floor + 1
  else if q.floor % 2 = 0 then q.floor else q.floor + 1

/-- Python `round(q, 2)`. -/
def round2 (q : ℚ) : ℚ := (pyRound (q * 100) : ℚ) / 100

theorem ratFloor_eq_intFloor (q : ℚ) : q.floor = ⌊q⌋ := by
  rw [Rat.floor_def', ← Rat.floor_def]

theorem pyRound_ge_floor (q : ℚ) : ⌊q⌋ ≤ pyRound q := by
  unfold pyRound
  rw [ratFloor_eq_intFloor]
  split
  · exact le_refl _
  · split
    · omega
    · split <;> omega

theorem pyRound_le (q : ℚ) : (pyRound q : ℚ) ≤ q + 1 / 2 := by
  unfold pyRound
  rw [ratFloor_eq_intFloor]
  have h1 : (⌊q⌋ : ℚ) ≤ q := Int.floor_le q
  have h2 : q < ⌊q⌋ + 1 := Int.lt_floor_add_one q
  split
  · linarith
  · rename_i hlt
    split
    · push_cast; linarith
    · rename_i hgt
      rw [not_lt] at hlt hgt
      split <;> push_cast <;> linarith

theorem pyRound_ge (q : ℚ) : q - 1 / 2 ≤ (pyRound q : ℚ) := by
  unfold pyRound
  rw [ratFloor_eq_intFloor]
  have h1 : (⌊q⌋ : ℚ) ≤ q := Int.floor_le q
  have h2 : q < ⌊q⌋ + 1 := Int.lt_floor_add_one q
  split
  · rename_i hlt; linarith
  · split
    · push_cast; linarith
    · split <;> push_cast <;> linarith

theorem round2_le (q : ℚ) : round2 q ≤ q + 1 / 200 := by
  unfold round2
  have h := pyRound_le (q * 100)
  rw [div_le_iff₀ (by norm_num : (0:ℚ) < 100)]
  linarith

theorem round2_ge (q : ℚ) : q - 1 / 200 ≤ round2 q := by
  unfold round2
  have h := pyRound_ge (q * 100)
  rw [le_div_iff₀ (by norm_num : (0:ℚ) < 100)]
  linarith

theorem round2_nonneg {q : ℚ} (h : 0 ≤ q) : 0 ≤ round2 q := by
  unfold round2
  have hf : (0:ℤ) ≤ ⌊q * 100⌋ := Int.floor_nonneg.mpr (by positivity)
  have h2 := pyRound_ge_floor (q * 100)
  have h3 : (0:ℚ) ≤ (pyRound (q * 100) : ℚ) := by exact_mod_cast le_trans hf h2
  positivity

/-! ## Data model (givelit/models.py) -/

/-- Normalised representation of an article (dataclass `Paper`).
The fields `match_count` and `age_days` are read by `reporting.py` and
`cli.py` but are absent from the `models.py` in the repository snapshot;
they are modelled from the spec: populated after creation by the scoring
stage, `age_days` only defined when `published` is known. -/
structure Paper where
  journal : List Char
  title : List Char
  url : List Char
  published : Option ℤ
  authors : List (List Char) := []
  summary : Option (List Char) := none
  relevance : ℚ := 0
  source_score : Option ℚ := none
  match_count : ℕ := 0
  age_days : Option ℤ := none
  deriving DecidableEq

/-- Journal search target (dataclass `JournalConfig`). -/
structure JournalConfig where
  key : List Char
  name : List Char
  container_title : List Char
  deriving DecidableEq

/-! ## Relevance scoring (givelit/relevance.py, compute_relevance) -/

/-- The combined lowercase search surface
`f-string (paper.title, blank, paper.summary or empty).lower()`. -/
def surfaceText (p : Paper) : List Char :=
  lower (p.title ++ " ".toList ++ (match p.summary with | some s => s | none => []))

/-- Python truthiness of the optional float `paper.source_score`:
false for `None` and for `0.0`. -/
def sourceTruthy (s : Option ℚ) : Bool :=
  match s with
  | none => false
  | some v => decide (v ≠ 0)

/-- The recency part of `compute_relevance` (lines 36-41): when `published`
is known and the paper is not future-dated, a linear freshness decay over
`window = max(recency_window, 1)` scaled by 5.0; otherwise nothing. -/
def freshness_part (published : Option ℤ) (recency_window : ℤ) (now : ℤ) : ℚ :=
  match published with
  | none => 0
  | some t =>
    let age_days : ℤ := (now - t).fdiv 86400
    if 0 ≤ age_days then
      let window : ℤ := max recency_window 1
      max 0 (((window : ℚ) - (age_days : ℚ)) / (window : ℚ)) * 5
    else 0

/-- One iteration of the keyword loop of `compute_relevance` (lines 22-31):
each title hit adds 6.0, each combined-surface hit adds 2.5, keywords empty
after trimming are skipped. -/
def keyword_step (title text : List Char) (score : ℚ) (keyword : List Char) : ℚ :=
  let target := strip (lower keyword)
  if target = [] then score
  else
    let title_hits := countSub title target
    let score := if title_hits ≠ 0 then score + 6 * title_hits else score
    let body_hits := countSub text target
    if body_hits ≠ 0 then score + 5 / 2 * body_hits else score

/-- The keyword loop of `compute_relevance`, folded over the keywords. -/
def keywordFold (title text : List Char) (keywords : List (List Char)) : ℚ :=
  keywords.foldl (keyword_step title text) 0

/-- Embedding of `compute_relevance(paper, keywords, recency_window)`.
The reference instant `now` makes the call to `datetime.now(tz=UTC)`
explicit.  Returns the value stored in `paper.relevance`, namely the raw
score rounded to 2 decimal places. -/
def compute_relevance (p : Paper) (keywords : List (List Char))
    (recency_window : ℤ) (now : ℤ) : ℚ :=
  let text := surfaceText p
  let title := lower p.title
  let score := keywordFold title text keywords
  let score := if sourceTruthy p.source_score
    then score + (match p.source_score with | some v => v | none => 0) / 10
    else score
  let score := score + freshness_part p.published recency_window now
  round2 score

/-- Modelled from the spec: the scorer's `matchCount` side effect is not in
the repository snapshot (`models.py` lacks the field; `reporting.py` reads
it).  Per spec 4.1, matchCount increments by 1 per keyword that has at
least one occurrence in the combined surface (not the raw occurrence
count); keywords empty after trimming are skipped. -/
def compute_match_count (p : Paper) (keywords : List (List Char)) : ℕ :=
  let text := surfaceText p
  keywords.foldl
    (fun acc keyword =>
      let target := strip (lower keyword)
      if target = [] then acc
      else if 1 ≤ countSub text target then acc + 1 else acc)
    0

/-- Modelled from the spec: the scorer's `ageDays` side effect is not in
the repository snapshot (`cli.py` reads `paper.age_days`).  Per spec 4.1,
when `published` is known and not in the future relative to the reference
time, `ageDays = floor((reference - published) in days)`; otherwise it
stays undefined. -/
def compute_age_days (published : Option ℤ) (now : ℤ) : Option ℤ :=
  match published with
  | none => none
  | some t =>
    let d : ℤ := (now - t).fdiv 86400
    if 0 ≤ d then some d else none

/-- The scoring stage as the pipeline sees it: per spec 4.1 the scorer
mutates `paper.relevance` (relevance.py line 43), `paper.matchCount` and
`paper.ageDays` (the latter two modelled from the spec, see above). -/
def score_paper (p : Paper) (keywords : List (List Char))
    (recency_window : ℤ) (now : ℤ) : Paper :=
  { p with
    relevance := compute_relevance p keywords recency_window now
    match_count := compute_match_count p keywords
    age_days := compute_age_days p.published now }

/-! ## Decomposition of the scorer into per-keyword points -/

/-- Points one keyword earns, as spec 4.1 words it: for a keyword that is
non-empty after trimming, 6.0 per title occurrence plus 2.5 per occurrence
in the combined surface; nothing otherwise. -/
def keyword_points (title text : List Char) (keyword : List Char) : ℚ :=
  if strip (lower keyword) = [] then 0
  else 6 * countSub title (strip (lower keyword))
    + 5 / 2 * countSub text (strip (lower keyword))

/-- The source bonus as spec 4.1 words it: `sourceScore / 10.0` whenever
`sourceScore` is present. -/
def spec_source_part (s : Option ℚ) : ℚ :=
  match s with
  | some v => v / 10
  | none => 0

/-- Relevance written from the spec's words: the sum over keywords of
`keyword_points`, plus the source bonus, plus the freshness bonus, rounded
to 2 decimal places. -/
def spec_relevance (p : Paper) (keywords : List (List Char))
    (recency_window : ℤ) (now : ℤ) : ℚ :=
  round2 ((keywords.map (keyword_points (lower p.title) (surfaceText p))).sum
    + spec_source_part p.source_score
    + freshness_part p.published recency_window now)

theorem keyword_step_eq (title text : List Char) (s : ℚ) (kw : List Char) :
    keyword_step title text s kw = s + keyword_points title text kw := by
  unfold keyword_step keyword_points
  by_cases h : strip (lower kw) = []
  · simp [h]
  · simp only [h, if_false]
    by_cases ht : countSub title (strip (lower kw)) = 0 <;>
      by_cases hb : countSub text (strip (lower kw)) = 0 <;>
        (simp [ht, hb]; try ring)

theorem foldl_keyword_step (title text : List Char) (init : ℚ) :
    ∀ ks : List (List Char),
      ks.foldl (keyword_step title text) init
        = init + (ks.map (keyword_points title text)).sum := by
  intro ks
  induction ks generalizing init with
  | nil => simp
  | cons kw rest ih =>
    simp only [List.foldl_cons, List.map_cons, List.sum_cons]
    rw [ih, keyword_step_eq]
    ring

theorem keywordFold_eq_sum (title text : List Char) (ks : List (List Char)) :
    keywordFold title text ks
      = (ks.map (keyword_points title text)).sum := by
  unfold keywordFold
  rw [foldl_keyword_step]
  ring

theorem keyword_points_nonneg (title text kw : List Char) :
    0 ≤ keyword_points title text kw := by
  unfold keyword_points
  split
  · exact le_refl 0
  · positivity

theorem freshness_part_nonneg (pub : Option ℤ) (w now : ℤ) :
    0 ≤ freshness_part pub w now := by
  unfold freshness_part
  match pub with
  | none => exact le_refl 0
  | some t =>
    simp only
    split
    · exact mul_nonneg (le_max_left 0 _) (by norm_num)
    · exact le_refl 0

theorem source_branch_eq (s : Option ℚ) (x : ℚ) :
    (if sourceTruthy s then x + (match s with | some v => v | none => 0) / 10 else x)
      = x + spec_source_part s := by
  match s with
  | none => simp [sourceTruthy, spec_source_part]
  | some v =>
    by_cases hv : v = 0 <;> simp [sourceTruthy, spec_source_part, hv]

theorem compute_relevance_eq_spec (p : Paper) (ks : List (List Char))
    (w now : ℤ) : compute_relevance p ks w now = spec_relevance p ks w now := by
  unfold compute_relevance spec_relevance
  dsimp only
  rw [source_branch_eq, keywordFold_eq_sum]

theorem pyRound_intCast (n : ℤ) : pyRound (n : ℚ) = n := by
  unfold pyRound
  rw [ratFloor_eq_intFloor]
  norm_num

theorem round2_hundredth (q : ℚ) (n : ℤ) (h : q * 100 = (n : ℚ)) :
    round2 q = q := by
  unfold round2
  rw [h, pyRound_intCast]
  rw [← h]
  field_simp

/-! ## Concrete papers used by scenario theorems -/

/-- The spec's concrete scenario paper: title with 2 keyword hits, no
summary, no source score, no publication date. -/
def pScenario : Paper :=
  { journal := "Journal".toList
    title := "Metagenomics Metagenomics study".toList
    url := "https://x".toList
    published := none }

/-- A paper whose upstream source score is negative: Python truthiness lets
`compute_relevance` add the negative bonus. -/
def pNegSource : Paper :=
  { journal := "Journal".toList
    title := "a".toList
    url := "https://x".toList
    published := none
    source_score := some (-10) }

/-! ## C1: the relevance formula and the 17.0 scenario -/

/-- C1: for every paper and keyword list, `compute_relevance` equals the
spec's formula: the sum over non-empty trimmed keywords of 6.0 per title
occurrence plus 2.5 per occurrence in the combined title-and-summary
surface (title hits double-counted by design), plus sourceScore/10.0 when
present, plus the freshness bonus when published is known, rounded to two
decimal places; and the concrete scenario (keywords [metagenomics], title
with two hits, no summary, no source score, no date) scores exactly 17.0
whatever the recency window and reference time. -/
theorem relevance_formula_spec :
    (∀ (p : Paper) (ks : List (List Char)) (w now : ℤ),
        compute_relevance p ks w now = spec_relevance p ks w now)
    ∧ (∀ w now : ℤ,
        compute_relevance pScenario ["metagenomics".toList] w now = 17) := by
  constructor
  · exact compute_relevance_eq_spec
  · intro w now
    rw [compute_relevance_eq_spec]
    have hker : keyword_points (lower pScenario.title) (surfaceText pScenario)
        ("metagenomics".toList) = 17 := by
      unfold keyword_points
      have h1 : strip (lower "metagenomics".toList) = "metagenomics".toList := by
        decide
      rw [h1]
      have h2 : countSub (lower pScenario.title) "metagenomics".toList = 2 := by
        decide
      have h3 : countSub (surfaceText pScenario) "metagenomics".toList = 2 := by
        decide
      rw [if_neg (by decide), h2, h3]
      norm_num
    unfold spec_relevance
    rw [List.map_cons, List.map_nil, List.sum_cons, List.sum_nil, hker]
    have hs : pScenario.source_score = none := rfl
    have hp : pScenario.published = none := rfl
    rw [hs, hp]
    have hz : (17 : ℚ) + 0 + spec_source_part none + freshness_part none w now
        = 17 := by
      simp [spec_source_part, freshness_part]
    rw [hz]
    exact round2_hundredth 17 1700 (by norm_num)

/-! ## C2: non-negativity of the score -/

/-- C2 (amended): whenever the paper's source score is absent or
non-negative, the returned score is non-negative; the value written into
`paper.relevance` is exactly the returned score, and it is a multiple of
1/100 (rounded to 2 decimals).  The claim's unconditional form is false:
a negative `sourceScore` is truthy and drives the score negative, see the
counterexample. -/
theorem relevance_nonneg_amended :
    ∀ (p : Paper) (ks : List (List Char)) (w now : ℤ),
      (∀ v : ℚ, p.source_score = some v → 0 ≤ v) →
        0 ≤ compute_relevance p ks w now
        ∧ (score_paper p ks w now).relevance = compute_relevance p ks w now
        ∧ ∃ n : ℤ, compute_relevance p ks w now = (n : ℚ) / 100 := by
  intro p ks w now hsrc
  refine ⟨?_, rfl, ?_⟩
  · rw [compute_relevance_eq_spec]
    unfold spec_relevance
    apply round2_nonneg
    have hsum : 0 ≤ (ks.map (keyword_points (lower p.title) (surfaceText p))).sum := by
      apply List.sum_nonneg
      intro x hx
      obtain ⟨kw, _, rfl⟩ := List.mem_map.mp hx
      exact keyword_points_nonneg _ _ _
    have hsp : 0 ≤ spec_source_part p.source_score := by
      unfold spec_source_part
      match h : p.source_score with
      | none => exact le_refl 0
      | some v => exact div_nonneg (hsrc v h) (by norm_num)
    have hf := freshness_part_nonneg p.published w now
    linarith
  · rw [compute_relevance_eq_spec]
    unfold spec_relevance round2
    exact ⟨_, rfl⟩

/-- Witness for C2's amended theorem at the concrete scenario paper. -/
theorem relevance_nonneg_witness :
    0 ≤ compute_relevance pScenario ["metagenomics".toList] 30 0
    ∧ (score_paper pScenario ["metagenomics".toList] 30 0).relevance
        = compute_relevance pScenario ["metagenomics".toList] 30 0
    ∧ ∃ n : ℤ,
        compute_relevance pScenario ["metagenomics".toList] 30 0 = (n : ℚ) / 100 :=
  relevance_nonneg_amended pScenario ["metagenomics".toList] 30 0
    (by intro v h; simp [pScenario] at h)

/-- Counterexample to C2 as stated: with `sourceScore = -10` (and no
keyword hit, no date) the scorer returns -1.0, a negative relevance. -/
theorem relevance_negative_source_counterexample :
    compute_relevance pNegSource ["q".toList] 30 0 < 0 := by
  rw [compute_relevance_eq_spec]
  have hker : keyword_points (lower pNegSource.title) (surfaceText pNegSource)
      ("q".toList) = 0 := by
    unfold keyword_points
    have h1 : strip (lower "q".toList) = "q".toList := by decide
    rw [h1]
    have h2 : countSub (lower pNegSource.title) "q".toList = 0 := by decide
    have h3 : countSub (surfaceText pNegSource) "q".toList = 0 := by decide
    rw [if_neg (by decide), h2, h3]
    norm_num
  unfold spec_relevance
  rw [List.map_cons, List.map_nil, List.sum_cons, List.sum_nil, hker]
  have hs : pNegSource.source_score = some (-10) := rfl
  have hp : pNegSource.published = none := rfl
  rw [hs, hp]
  have hz : (0 : ℚ) + 0 + spec_source_part (some (-10)) + freshness_part none 30 0
      = -1 := by
    simp [spec_source_part, freshness_part]
  rw [hz]
  have : round2 (-1 : ℚ) = -1 := round2_hundredth (-1) (-100) (by norm_num)
  rw [this]
  norm_num

/-! ## C7: the freshness contribution -/

/-- C7: the freshness contribution to the score.  The score decomposes as
the keyword fold plus source bonus plus `freshness_part`; when the age in
days is non-negative the contribution is
max(0, (window - ageDays)/window) * 5 with window = max(recencyWindow, 1);
age 0 earns exactly 5.0 for any window; age = window earns 0; a
future-dated paper (negative age) contributes nothing; and the
contribution is never negative. -/
theorem freshness_spec :
    (∀ (p : Paper) (ks : List (List Char)) (w now : ℤ),
        compute_relevance p ks w now
          = round2 (keywordFold (lower p.title) (surfaceText p) ks
              + spec_source_part p.source_score
              + freshness_part p.published w now))
    ∧ (∀ t w now : ℤ, 0 ≤ (now - t).fdiv 86400 →
        freshness_part (some t) w now
          = max 0 ((((max w 1 : ℤ) : ℚ) - (((now - t).fdiv 86400 : ℤ) : ℚ))
              / ((max w 1 : ℤ) : ℚ)) * 5)
    ∧ (∀ t w now : ℤ, (now - t).fdiv 86400 = 0 →
        freshness_part (some t) w now = 5)
    ∧ (∀ t w now : ℤ, (now - t).fdiv 86400 = max w 1 →
        freshness_part (some t) w now = 0)
    ∧ (∀ t w now : ℤ, (now - t).fdiv 86400 < 0 →
        freshness_part (some t) w now = 0)
    ∧ (∀ (pub : Option ℤ) (w now : ℤ), 0 ≤ freshness_part pub w now) := by
  have hwin : ∀ w : ℤ, (0 : ℚ) < ((max w 1 : ℤ) : ℚ) := by
    intro w
    exact_mod_cast lt_of_lt_of_le zero_lt_one (le_max_right w 1)
  refine ⟨?_, ?_, ?_, ?_, ?_, freshness_part_nonneg⟩
  · intro p ks w now
    unfold compute_relevance
    dsimp only
    rw [source_branch_eq]
  · intro t w now h
    unfold freshness_part
    dsimp only
    rw [if_pos h]
  · intro t w now h
    unfold freshness_part
    dsimp only
    rw [h, if_pos (le_refl 0)]
    rw [show (((0 : ℤ)) : ℚ) = 0 by norm_num, sub_zero,
      div_self (ne_of_gt (hwin w)), max_eq_right zero_le_one]
    norm_num
  · intro t w now h
    unfold freshness_part
    dsimp only
    rw [h, if_pos (le_trans zero_le_one (le_max_right w 1))]
    rw [sub_self]
    simp
  · intro t w now h
    unfold freshness_part
    dsimp only
    rw [if_neg (not_le.mpr h)]

/-! ## C3: matchCount -/

/-- Decision form of "this keyword matched": non-empty after trimming and
at least one occurrence in the combined surface. -/
def keyword_matched (text kw : List Char) : Bool :=
  decide (strip (lower kw) ≠ []) && decide (1 ≤ countSub text (strip (lower kw)))

theorem compute_match_count_eq (p : Paper) (ks : List (List Char)) :
    compute_match_count p ks
      = (ks.filter (keyword_matched (surfaceText p))).length := by
  unfold compute_match_count
  dsimp only
  suffices h : ∀ (ks : List (List Char)) (init : ℕ),
      ks.foldl
        (fun acc keyword =>
          let target := strip (lower keyword)
          if target = [] then acc
          else if 1 ≤ countSub (surfaceText p) target then acc + 1 else acc)
        init
      = init + (ks.filter (keyword_matched (surfaceText p))).length by
    simpa using h ks 0
  intro ks
  induction ks with
  | nil => intro init; simp
  | cons kw rest ih =>
    intro init
    simp only [List.foldl_cons, List.filter_cons]
    by_cases h1 : strip (lower kw) = []
    · simp only [h1, if_pos rfl]
      rw [ih]
      have : keyword_matched (surfaceText p) kw = false := by
        simp [keyword_matched, h1]
      simp [this]
    · by_cases h2 : 1 ≤ countSub (surfaceText p) (strip (lower kw))
      · have hmt : keyword_matched (surfaceText p) kw = true := by
          simp [keyword_matched, h1, h2]
        simp only [if_neg h1, if_pos h2]
        rw [ih]
        simp [hmt]
        omega
      · have : keyword_matched (surfaceText p) kw = false := by
          simp [keyword_matched, h2]
        simp only [if_neg h1, if_neg h2, this]
        rw [ih]
        simp

/-- C3: the scorer sets `matchCount` to the number of keywords with at
least one occurrence in the combined title-and-summary surface (1 per
matching keyword, not the raw occurrence count), which is at most the
number of keywords; in the concrete scenario (one keyword, two title
hits) it is exactly 1. -/
theorem match_count_spec :
    (∀ (p : Paper) (ks : List (List Char)) (w now : ℤ),
        (score_paper p ks w now).match_count
            = (ks.filter (keyword_matched (surfaceText p))).length
        ∧ (score_paper p ks w now).match_count ≤ ks.length)
    ∧ (∀ w now : ℤ,
        (score_paper pScenario ["metagenomics".toList] w now).match_count = 1) := by
  constructor
  · intro p ks w now
    have hm : (score_paper p ks w now).match_count = compute_match_count p ks := rfl
    constructor
    · rw [hm, compute_match_count_eq]
    · rw [hm, compute_match_count_eq]
      exact List.length_filter_le _ _
  · intro w now
    have hm : (score_paper pScenario ["metagenomics".toList] w now).match_count
        = compute_match_count pScenario ["metagenomics".toList] := rfl
    rw [hm]
    decide

/-! ## C9: monotonicity in title occurrences -/

/-- A paper for the monotonicity witness: one title occurrence of the
keyword, versus two in `pScenario`. -/
def pMono : Paper :=
  { journal := "Journal".toList
    title := "Metagenomics study".toList
    url := "https://x".toList
    published := none }

/-- C9: holding the keyword list, the reference time and all other fields
of the paper fixed, strictly increasing the occurrence count of a keyword
in the title (the combined-surface count not decreasing, every other
keyword target's counts unchanged) strictly increases the returned
score. -/
theorem title_occurrences_monotone :
    ∀ (p : Paper) (t2 : List Char) (ks : List (List Char)) (kw : List Char)
      (w now : ℤ),
      kw ∈ ks →
      strip (lower kw) ≠ [] →
      countSub (lower p.title) (strip (lower kw))
          < countSub (lower t2) (strip (lower kw)) →
      countSub (surfaceText p) (strip (lower kw))
          ≤ countSub (surfaceText { p with title := t2 }) (strip (lower kw)) →
      (∀ kw2 ∈ ks, strip (lower kw2) ≠ strip (lower kw) →
        countSub (lower t2) (strip (lower kw2))
            = countSub (lower p.title) (strip (lower kw2))
        ∧ countSub (surfaceText { p with title := t2 }) (strip (lower kw2))
            = countSub (surfaceText p) (strip (lower kw2))) →
      compute_relevance p ks w now
        < compute_relevance { p with title := t2 } ks w now := by
  intro p t2 ks kw w now hmem hne htitle hbody hoth
  rw [compute_relevance_eq_spec, compute_relevance_eq_spec]
  unfold spec_relevance
  have htit : ({ p with title := t2 } : Paper).title = t2 := rfl
  have hsrc : ({ p with title := t2 } : Paper).source_score = p.source_score := rfl
  have hpub : ({ p with title := t2 } : Paper).published = p.published := rfl
  rw [htit, hsrc, hpub]
  have hpoint : ∀ kw2 ∈ ks,
      keyword_points (lower p.title) (surfaceText p) kw2
        ≤ keyword_points (lower t2) (surfaceText { p with title := t2 }) kw2 := by
    intro kw2 hk2
    by_cases hsame : strip (lower kw2) = strip (lower kw)
    · unfold keyword_points
      rw [if_neg (hsame ▸ hne), if_neg (hsame ▸ hne)]
      rw [hsame]
      have h1 : (countSub (lower p.title) (strip (lower kw)) : ℚ)
          ≤ countSub (lower t2) (strip (lower kw)) := by
        exact_mod_cast le_of_lt htitle
      have h2 : (countSub (surfaceText p) (strip (lower kw)) : ℚ)
          ≤ countSub (surfaceText { p with title := t2 }) (strip (lower kw)) := by
        exact_mod_cast hbody
      linarith
    · obtain ⟨he1, he2⟩ := hoth kw2 hk2 hsame
      unfold keyword_points
      rw [he1, he2]
  have hgap : keyword_points (lower p.title) (surfaceText p) kw + 6
      ≤ keyword_points (lower t2) (surfaceText { p with title := t2 }) kw := by
    unfold keyword_points
    rw [if_neg hne, if_neg hne]
    have h1 : (countSub (lower p.title) (strip (lower kw)) : ℚ) + 1
        ≤ countSub (lower t2) (strip (lower kw)) := by
      exact_mod_cast htitle
    have h2 : (countSub (surfaceText p) (strip (lower kw)) : ℚ)
        ≤ countSub (surfaceText { p with title := t2 }) (strip (lower kw)) := by
      exact_mod_cast hbody
    linarith
  have hsum : (ks.map (keyword_points (lower p.title) (surfaceText p))).sum + 6
      ≤ (ks.map (keyword_points (lower t2)
          (surfaceText { p with title := t2 }))).sum := by
    obtain ⟨l1, l2, rfl⟩ := List.append_of_mem hmem
    rw [List.map_append, List.map_cons, List.sum_append, List.sum_cons,
      List.map_append, List.map_cons, List.sum_append, List.sum_cons]
    have ha : (l1.map (keyword_points (lower p.title) (surfaceText p))).sum
        ≤ (l1.map (keyword_points (lower t2)
            (surfaceText { p with title := t2 }))).sum := by
      apply List.sum_le_sum
      intro i hi
      exact hpoint i (List.mem_append_left _ hi)
    have hb : (l2.map (keyword_points (lower p.title) (surfaceText p))).sum
        ≤ (l2.map (keyword_points (lower t2)
            (surfaceText { p with title := t2 }))).sum := by
      apply List.sum_le_sum
      intro i hi
      exact hpoint i (List.mem_append_right _ (List.mem_cons_of_mem _ hi))
    linarith
  have h1 := round2_le ((ks.map (keyword_points (lower p.title) (surfaceText p))).sum
    + spec_source_part p.source_score + freshness_part p.published w now)
  have h2 := round2_ge ((ks.map (keyword_points (lower t2)
      (surfaceText { p with title := t2 }))).sum
    + spec_source_part p.source_score + freshness_part p.published w now)
  linarith

/-- Witness for C9: one versus two title occurrences of "metagenomics",
all else fixed, strictly increases the score. -/
theorem title_occurrences_monotone_witness :
    compute_relevance pMono ["metagenomics".toList] 30 0
      < compute_relevance
          { pMono with title := "Metagenomics Metagenomics study".toList }
          ["metagenomics".toList] 30 0 := by
  apply title_occurrences_monotone pMono
    ("Metagenomics Metagenomics study".toList) ["metagenomics".toList]
    ("metagenomics".toList) 30 0
  · decide
  · decide
  · decide
  · decide
  · intro kw2 hk2 hcon
    have : kw2 = "metagenomics".toList := by simpa using hk2
    exact absurd rfl (this ▸ hcon)

/-! ## Coverage grouping (givelit/reporting.py) -/

/-- The fixed level order of `_group_by_coverage`'s final comprehension. -/
def coverage_levels : List (List Char) :=
  ["full".toList, "near".toList, "partial".toList, "single".toList]

/-- Embedding of `_coverage_level(paper, total_keywords)`. -/
def coverage_level (p : Paper) (total : ℤ) : List Char :=
  if total ≤ 0 then "unmatched".toList
  else if total ≤ (p.match_count : ℤ) then "full".toList
  else if max (total - 1) 1 ≤ (p.match_count : ℤ) then "near".toList
  else if 1 ≤ (p.match_count : ℤ) then "partial".toList
  else "single".toList

/-- The bucket one level receives: the papers of that level, in input
order (the dict in `_group_by_coverage` appends per level). -/
def coverage_group (papers : List Paper) (total : ℤ) (lvl : List Char) :
    List Paper :=
  papers.filter (fun p => coverage_level p total = lvl)

/-- Embedding of `_group_by_coverage(papers, total_keywords)`: the final
dict comprehension returns only the four named levels, in fixed order,
omitting empty buckets.  A paper classified to any other level (the
degenerate "unmatched") sits in the dict but is not returned. -/
def group_by_coverage (papers : List Paper) (total : ℤ) :
    List (List Char × List Paper) :=
  coverage_levels.filterMap (fun lvl =>
    if (coverage_group papers total lvl).isEmpty then none
    else some (lvl, coverage_group papers total lvl))

theorem coverage_level_mem {total : ℤ} (h : 0 < total) (p : Paper) :
    coverage_level p total ∈ coverage_levels := by
  unfold coverage_level coverage_levels
  rw [if_neg (by omega : ¬ total ≤ 0)]
  split_ifs <;> simp

theorem count_coverage_group (a : Paper) (papers : List Paper) (total : ℤ)
    (lvl : List Char) :
    (coverage_group papers total lvl).count a
      = if coverage_level a total = lvl then papers.count a else 0 := by
  unfold coverage_group
  by_cases hc : coverage_level a total = lvl
  · rw [if_pos hc]
    exact List.count_filter (by simp [hc])
  · rw [if_neg hc]
    apply List.count_eq_zero.mpr
    intro hmem
    rw [List.mem_filter] at hmem
    exact hc (by simpa using hmem.2)

theorem group_flatten_eq (papers : List Paper) (total : ℤ) :
    ((group_by_coverage papers total).map Prod.snd).flatten
      = (coverage_levels.map (coverage_group papers total)).flatten := by
  unfold group_by_coverage
  generalize coverage_levels = L
  induction L with
  | nil => simp
  | cons lvl rest ih =>
    rw [List.filterMap_cons, List.map_cons, List.flatten_cons]
    by_cases he : (coverage_group papers total lvl).isEmpty
    · have h0 : coverage_group papers total lvl = [] := List.isEmpty_iff.mp he
      rw [if_pos he]
      dsimp only
      rw [ih, h0, List.nil_append]
    · rw [if_neg he]
      dsimp only
      rw [List.map_cons, List.flatten_cons, ih]

theorem coverage_partition (papers : List Paper) (total : ℤ) (h : 0 < total) :
    List.Perm ((group_by_coverage papers total).map Prod.snd).flatten papers := by
  rw [group_flatten_eq]
  apply List.perm_iff_count.mpr
  intro a
  have hmem := coverage_level_mem h a
  unfold coverage_levels at hmem ⊢
  simp only [List.map_cons, List.map_nil, List.flatten_cons, List.flatten_nil,
    List.count_append, List.append_nil]
  rw [count_coverage_group, count_coverage_group, count_coverage_group,
    count_coverage_group]
  simp only [List.mem_cons, List.not_mem_nil, or_false] at hmem
  rcases hmem with hc | hc | hc | hc <;> rw [hc]
  · rw [if_pos rfl, if_neg (by decide), if_neg (by decide), if_neg (by decide)]
    omega
  · rw [if_neg (by decide), if_pos rfl, if_neg (by decide), if_neg (by decide)]
    omega
  · rw [if_neg (by decide), if_neg (by decide), if_pos rfl, if_neg (by decide)]
    omega
  · rw [if_neg (by decide), if_neg (by decide), if_neg (by decide), if_pos rfl]
    omega

theorem group_keys_sublist (papers : List Paper) (total : ℤ) :
    ((group_by_coverage papers total).map Prod.fst).Sublist coverage_levels := by
  unfold group_by_coverage
  generalize coverage_levels = L
  induction L with
  | nil => simp
  | cons lvl rest ih =>
    rw [List.filterMap_cons]
    by_cases he : (coverage_group papers total lvl).isEmpty
    · rw [if_pos he]
      dsimp only
      exact ih.cons lvl
    · rw [if_neg he]
      dsimp only
      rw [List.map_cons]
      exact ih.cons₂ lvl

theorem group_values_nonempty (papers : List Paper) (total : ℤ) :
    ∀ lg ∈ group_by_coverage papers total, lg.2 ≠ [] := by
  intro lg hmem
  unfold group_by_coverage at hmem
  rw [List.mem_filterMap] at hmem
  obtain ⟨lvl, _, hf⟩ := hmem
  by_cases he : (coverage_group papers total lvl).isEmpty
  · rw [if_pos he] at hf
    exact absurd hf (by simp)
  · rw [if_neg he] at hf
    injection hf with h2
    rw [← h2]
    dsimp only
    intro h0
    exact he (by rw [h0]; rfl)

theorem coverage_degenerate (papers : List Paper) (total : ℤ) (h : total ≤ 0) :
    (∀ p ∈ papers, coverage_level p total = "unmatched".toList)
    ∧ group_by_coverage papers total = [] := by
  have hlvl : ∀ p : Paper, coverage_level p total = "unmatched".toList := by
    intro p
    unfold coverage_level
    rw [if_pos h]
  refine ⟨fun p _ => hlvl p, ?_⟩
  have hg : ∀ lvl ∈ coverage_levels, coverage_group papers total lvl = [] := by
    intro lvl hlv
    unfold coverage_group
    apply List.filter_eq_nil_iff.mpr
    intro a _
    simp only [hlvl a, decide_eq_true_eq]
    unfold coverage_levels at hlv
    simp only [List.mem_cons, List.not_mem_nil, or_false] at hlv
    rcases hlv with rfl | rfl | rfl | rfl <;> decide
  unfold group_by_coverage
  apply List.filterMap_eq_nil_iff.mpr
  intro lvl hlv
  rw [if_pos (List.isEmpty_iff.mpr (hg lvl hlv))]

/-- A paper for the degenerate coverage counterexample (default
`match_count = 0`). -/
def pLost : Paper :=
  { journal := "Journal".toList
    title := "t".toList
    url := "https://x".toList
    published := none }

/-- C4 (amended): the returned groups follow the fixed order full, near,
partial, single with empty groups omitted; when totalKeywords is positive
their union is a permutation of the input (each paper exactly once,
whatever the input order); but when totalKeywords <= 0 every paper is
classified into the "unmatched" bucket, which the returned mapping omits,
so the returned mapping is empty and the partition property fails. -/
theorem group_by_coverage_spec :
    ∀ (papers : List Paper) (total : ℤ),
      ((group_by_coverage papers total).map Prod.fst).Sublist coverage_levels
      ∧ (∀ lg ∈ group_by_coverage papers total, lg.2 ≠ [])
      ∧ (0 < total →
          List.Perm ((group_by_coverage papers total).map Prod.snd).flatten papers)
      ∧ (total ≤ 0 →
          (∀ p ∈ papers, coverage_level p total = "unmatched".toList)
          ∧ group_by_coverage papers total = []) :=
  fun papers total =>
    ⟨group_keys_sublist papers total,
     group_values_nonempty papers total,
     coverage_partition papers total,
     coverage_degenerate papers total⟩

/-- Counterexample to C4 as stated: with `totalKeywords = 0` the single
input paper lands in the "unmatched" bucket, the returned mapping is
empty, and the union of the returned groups does not contain the paper. -/
theorem group_by_coverage_drop_counterexample :
    coverage_level pLost 0 = "unmatched".toList
    ∧ group_by_coverage [pLost] 0 = []
    ∧ pLost ∉ ((group_by_coverage [pLost] 0).map Prod.snd).flatten := by
  refine ⟨by decide, ?_, ?_⟩
  · have h := (coverage_degenerate [pLost] 0 (le_refl 0)).2
    exact h
  · have h := (coverage_degenerate [pLost] 0 (le_refl 0)).2
    rw [h]
    simp

/-! ## CLI pipeline (givelit/cli.py): sorting, filtering, truncation -/

/-- The three sort strategies of the CLI. -/
inductive SortStrategy where
  | score
  | recency
  | journal
  deriving DecidableEq

/-- Embedding of `age_value` inside `_sort_papers`: the age in days, or the
sentinel 10^6 when unknown. -/
def age_value (p : Paper) : ℤ :=
  match p.age_days with
  | some d => d
  | none => 10 ^ 6

/-- Python string comparison (less-or-equal), lexicographic on code
points. -/
def lexLE : List Char → List Char → Bool
  | [], _ => true
  | _ :: _, [] => false
  | a :: as, b :: bs =>
    if a < b then true
    else if b < a then false
    else lexLE as bs

/-- Tuple-key comparison for the `score` strategy:
key = (-relevance, age_value, lowercase title), ascending. -/
def key_le_score (p q : Paper) : Bool :=
  if p.relevance = q.relevance then
    (if age_value p = age_value q then lexLE (lower p.title) (lower q.title)
     else decide (age_value p < age_value q))
  else decide (q.relevance < p.relevance)

/-- Tuple-key comparison for the `recency` strategy:
key = (age_value, -relevance, lowercase title), ascending. -/
def key_le_recency (p q : Paper) : Bool :=
  if age_value p = age_value q then
    (if p.relevance = q.relevance then lexLE (lower p.title) (lower q.title)
     else decide (q.relevance < p.relevance))
  else decide (age_value p < age_value q)

/-- Tuple-key comparison for the `journal` strategy:
key = (lowercase journal, -relevance, age_value), ascending. -/
def key_le_journal (p q : Paper) : Bool :=
  if lower p.journal = lower q.journal then
    (if p.relevance = q.relevance then decide (age_value p ≤ age_value q)
     else decide (q.relevance < p.relevance))
  else lexLE (lower p.journal) (lower q.journal)

/-- Embedding of `_sort_papers(papers, strategy)`: Python `sorted` is a
stable sort ascending in the strategy's key tuple; `mergeSort` with the
corresponding total preorder computes the same list. -/
def sort_papers (papers : List Paper) (strategy : SortStrategy) : List Paper :=
  match strategy with
  | .score => papers.mergeSort key_le_score
  | .recency => papers.mergeSort key_le_recency
  | .journal => papers.mergeSort key_le_journal

/-- Embedding of the filter loop in `radar` (cli.py lines 194-202): drop a
paper when its url is empty, or when `days > 0` and its known age exceeds
`days`. -/
def filter_papers (papers : List Paper) (days : ℤ) : List Paper :=
  papers.filter (fun p =>
    !(p.url.isEmpty)
    && !(decide (0 < days) && (match p.age_days with
         | some d => decide (days < d)
         | none => false)))

/-- The post-fetch part of `radar`: score every paper (with
`recency_window = days if days > 0 else 0`), filter, sort by the chosen
strategy, truncate to `max_results`. -/
def radar_pipeline (papers : List Paper) (keywords : List (List Char))
    (days : ℤ) (max_results : ℕ) (strategy : SortStrategy) (now : ℤ) :
    List Paper :=
  let recency_window : ℤ := if 0 < days then days else 0
  let scored := papers.map (fun p => score_paper p keywords recency_window now)
  let filtered := filter_papers scored days
  (sort_papers filtered strategy).take max_results

theorem filter_pred_iff (days : ℤ) (p : Paper) :
    (!(p.url.isEmpty)
      && !(decide (0 < days) && (match p.age_days with
           | some d => decide (days < d)
           | none => false))) = true
    ↔ p.url ≠ [] ∧ ¬(0 < days ∧ ∃ d, p.age_days = some d ∧ days < d) := by
  cases had : p.age_days with
  | none => simp [had, List.isEmpty_iff]
  | some d =>
    simp [had, List.isEmpty_iff]
    intro _
    omega

theorem mem_sort_papers (papers : List Paper) (s : SortStrategy) (p : Paper) :
    p ∈ sort_papers papers s ↔ p ∈ papers := by
  cases s <;> simp [sort_papers]

/-! ## C5: final output drops empty urls and over-age papers only -/

/-- C5: the filter keeps exactly the papers with a non-empty url whose
known age does not exceed `days` when `days > 0`; unknown age is never
grounds for exclusion; consequently no paper in the final pipeline output
has an empty url or a known age exceeding a positive `days`. -/
theorem pipeline_filter_spec :
    ∀ (papers : List Paper) (days : ℤ),
      (∀ p : Paper, p ∈ filter_papers papers days ↔
        p ∈ papers ∧ p.url ≠ []
          ∧ ¬(0 < days ∧ ∃ d, p.age_days = some d ∧ days < d))
      ∧ (∀ p ∈ papers, p.url ≠ [] → p.age_days = none →
          p ∈ filter_papers papers days)
      ∧ (∀ (keywords : List (List Char)) (max_results : ℕ)
          (strategy : SortStrategy) (now : ℤ),
          ∀ p ∈ radar_pipeline papers keywords days max_results strategy now,
            p.url ≠ [] ∧ (0 < days → ∀ d, p.age_days = some d → d ≤ days)) := by
  intro papers days
  have hchar : ∀ (l : List Paper) (p : Paper), p ∈ filter_papers l days ↔
      p ∈ l ∧ p.url ≠ []
        ∧ ¬(0 < days ∧ ∃ d, p.age_days = some d ∧ days < d) := by
    intro l p
    unfold filter_papers
    rw [List.mem_filter, filter_pred_iff]
  refine ⟨hchar papers, ?_, ?_⟩
  · intro p hp hurl hage
    rw [hchar]
    refine ⟨hp, hurl, ?_⟩
    rintro ⟨-, d, hd, -⟩
    rw [hage] at hd
    cases hd
  · intro keywords max_results strategy now p hp
    unfold radar_pipeline at hp
    have h1 : p ∈ filter_papers
        (papers.map (fun q => score_paper q keywords
          (if 0 < days then days else 0) now)) days := by
      have := List.mem_of_mem_take hp
      rwa [mem_sort_papers] at this
    rw [hchar] at h1
    obtain ⟨-, hurl, hnot⟩ := h1
    refine ⟨hurl, ?_⟩
    intro hd d hdd
    by_contra hlt
    exact hnot ⟨hd, d, hdd, by omega⟩

/-! ## C6: the score sort order and truncation -/

/-- The ordering C6 claims of the final output under the score strategy:
non-increasing relevance, then non-decreasing age value (unknown age
carries the sentinel 10^6, so it orders after every realistic known age),
then non-decreasing lowercase title. -/
def score_order (p q : Paper) : Prop :=
  q.relevance ≤ p.relevance
  ∧ (q.relevance = p.relevance → age_value p ≤ age_value q)
  ∧ (q.relevance = p.relevance → age_value p = age_value q →
      lexLE (lower p.title) (lower q.title) = true)

theorem lexLE_total : ∀ a b : List Char, (lexLE a b || lexLE b a) = true := by
  intro a
  induction a with
  | nil => intro b; simp [lexLE]
  | cons x xs ih =>
    intro b
    cases b with
    | nil => simp [lexLE]
    | cons y ys =>
      rcases lt_trichotomy x y with h | h | h
      · simp [lexLE, h]
      · subst h
        simpa [lexLE] using ih ys
      · simp [lexLE, h, lt_asymm h]

theorem lexLE_trans :
    ∀ a b c : List Char, lexLE a b = true → lexLE b c = true →
      lexLE a c = true := by
  intro a
  induction a with
  | nil => intro b c _ _; simp [lexLE]
  | cons x xs ih =>
    intro b c hab hbc
    cases b with
    | nil => simp [lexLE] at hab
    | cons y ys =>
      cases c with
      | nil => simp [lexLE] at hbc
      | cons z zs =>
        rcases lt_trichotomy x y with h1 | h1 | h1
        · rcases lt_trichotomy y z with h2 | h2 | h2
          · simp [lexLE, lt_trans h1 h2]
          · subst h2
            simp [lexLE, h1]
          · simp [lexLE, lt_asymm h2, h2] at hbc
        · subst h1
          rcases lt_trichotomy x z with h2 | h2 | h2
          · simp [lexLE, h2]
          · subst h2
            simp only [lexLE, lt_irrefl, if_false] at hab hbc ⊢
            exact ih _ _ hab hbc
          · simp [lexLE, lt_asymm h2, h2] at hbc
        · simp [lexLE, lt_asymm h1, h1] at hab

theorem key_le_score_iff (p q : Paper) :
    key_le_score p q = true ↔
      (q.relevance < p.relevance
        ∨ (p.relevance = q.relevance
            ∧ (age_value p < age_value q
                ∨ (age_value p = age_value q
                    ∧ lexLE (lower p.title) (lower q.title) = true)))) := by
  unfold key_le_score
  by_cases h1 : p.relevance = q.relevance
  · by_cases h2 : age_value p = age_value q
    · simp [h1, h2]
    · simp [h1, h2]
  · rw [if_neg h1]
    simp only [decide_eq_true_eq]
    constructor
    · exact Or.inl
    · rintro (h | ⟨he, -⟩)
      · exact h
      · exact absurd he h1

theorem key_le_score_total :
    ∀ p q : Paper, (key_le_score p q || key_le_score q p) = true := by
  intro p q
  rw [Bool.or_eq_true, key_le_score_iff, key_le_score_iff]
  by_cases h1 : p.relevance = q.relevance
  · by_cases h2 : age_value p = age_value q
    · rcases Bool.or_eq_true _ _ |>.mp (lexLE_total (lower p.title) (lower q.title))
        with h | h
      · exact Or.inl (Or.inr ⟨h1, Or.inr ⟨h2, h⟩⟩)
      · exact Or.inr (Or.inr ⟨h1.symm, Or.inr ⟨h2.symm, h⟩⟩)
    · rcases lt_or_gt_of_ne h2 with h | h
      · exact Or.inl (Or.inr ⟨h1, Or.inl h⟩)
      · exact Or.inr (Or.inr ⟨h1.symm, Or.inl h⟩)
  · rcases lt_or_gt_of_ne h1 with h | h
    · exact Or.inr (Or.inl h)
    · exact Or.inl (Or.inl h)

theorem key_le_score_trans :
    ∀ p q r : Paper, key_le_score p q = true → key_le_score q r = true →
      key_le_score p r = true := by
  intro p q r hpq hqr
  rw [key_le_score_iff] at hpq hqr ⊢
  rcases hpq with h1 | ⟨he1, h1⟩
  · rcases hqr with h2 | ⟨he2, h2⟩
    · exact Or.inl (lt_trans h2 h1)
    · exact Or.inl (he2 ▸ h1)
  · rcases hqr with h2 | ⟨he2, h2⟩
    · exact Or.inl (he1 ▸ h2)
    · refine Or.inr ⟨he1.trans he2, ?_⟩
      rcases h1 with h1 | ⟨ha1, h1⟩
      · rcases h2 with h2 | ⟨ha2, h2⟩
        · exact Or.inl (lt_trans h1 h2)
        · exact Or.inl (ha2 ▸ h1)
      · rcases h2 with h2 | ⟨ha2, h2⟩
        · exact Or.inl (ha1 ▸ h2)
        · exact Or.inr ⟨ha1.trans ha2, lexLE_trans _ _ _ h1 h2⟩

theorem key_le_score_imp_order (p q : Paper) (h : key_le_score p q = true) :
    score_order p q := by
  rw [key_le_score_iff] at h
  unfold score_order
  rcases h with h | ⟨he, h⟩
  · exact ⟨le_of_lt h, fun hc => absurd (hc ▸ h) (lt_irrefl _),
      fun hc _ => absurd (hc ▸ h) (lt_irrefl _)⟩
  · refine ⟨le_of_eq he.symm, ?_, ?_⟩
    · intro _
      rcases h with h | ⟨ha, _⟩
      · exact le_of_lt h
      · exact le_of_eq ha
    · intro _ hav
      rcases h with h | ⟨_, hl⟩
      · exact absurd (hav ▸ h) (lt_irrefl _)
      · exact hl

/-- C6: under the score strategy, the final output is the sorted sequence
truncated to `max_results` papers: its length is at most `max_results`
and it is pairwise ordered by non-increasing relevance, ties broken by
non-decreasing age value (unknown age carrying the sentinel 10^6, hence
ordering last among realistic ages), further ties by non-decreasing
lowercase title.  The last conjunct spells out "unknown age orders last":
once an unknown-age paper appears, every later paper of equal relevance
either has unknown age too or a (physically impossible) age of at least
10^6 days. -/
theorem sort_score_spec :
    ∀ (papers : List Paper) (keywords : List (List Char)) (days : ℤ)
      (max_results : ℕ) (now : ℤ),
      radar_pipeline papers keywords days max_results SortStrategy.score now
          = (sort_papers
              (filter_papers
                (papers.map (fun p => score_paper p keywords
                  (if 0 < days then days else 0) now)) days)
              SortStrategy.score).take max_results
      ∧ (radar_pipeline papers keywords days max_results
          SortStrategy.score now).length ≤ max_results
      ∧ (radar_pipeline papers keywords days max_results
          SortStrategy.score now).Pairwise score_order
      ∧ (radar_pipeline papers keywords days max_results
          SortStrategy.score now).Pairwise (fun p q =>
            p.age_days = none → q.relevance = p.relevance →
              ∀ d : ℤ, q.age_days = some d → (10 : ℤ) ^ 6 ≤ d) := by
  intro papers keywords days max_results now
  have hpair : (radar_pipeline papers keywords days max_results
      SortStrategy.score now).Pairwise score_order := by
    unfold radar_pipeline
    dsimp only
    apply List.Pairwise.sublist (List.take_sublist _ _)
    have hsorted := @List.sorted_mergeSort Paper key_le_score
      (fun a b c => key_le_score_trans a b c)
      (fun a b => key_le_score_total a b)
      (filter_papers
        (papers.map (fun p => score_paper p keywords
          (if 0 < days then days else 0) now)) days)
    unfold sort_papers
    exact hsorted.imp (fun h => key_le_score_imp_order _ _ h)
  refine ⟨rfl, ?_, hpair, ?_⟩
  · unfold radar_pipeline
    rw [List.length_take]
    exact min_le_left _ _
  · apply hpair.imp
    intro p q hord hnone hrel d hd
    have hav := hord.2.1 hrel
    rw [show age_value p = (10 : ℤ) ^ 6 by simp [age_value, hnone]] at hav
    rwa [show age_value q = d by simp [age_value, hd]] at hav

/-! ## Crossref fetcher (givelit/fetcher.py)

The HTTP exchange is abstracted by an oracle mapping (journal, query,
rows) to a response: status code plus the decoded item list of the JSON
payload.  Markup stripping of abstracts (BeautifulSoup) and the calendar
validity check of `datetime(year, month, day)` are external collaborators,
passed in as functions. -/

/-- One entry of a Crossref item's author list. -/
structure CrossrefAuthor where
  given : Option (List Char) := none
  family : Option (List Char) := none
  name : Option (List Char) := none
  deriving DecidableEq

/-- Python truthiness of an optional string: `None` and the empty string
are falsy. -/
def str_truthy (o : Option (List Char)) : Bool :=
  match o with
  | none => false
  | some s => !s.isEmpty

/-- Python `a or b` for an optional string `a` and a default `b`. -/
def py_or_str (o : Option (List Char)) (d : List Char) : List Char :=
  if str_truthy o then o.getD [] else d

/-- Embedding of `_parse_author`: "Given Family" when both parts are
truthy, else name, else family, else given, else "Unknown". -/
def parse_author (a : CrossrefAuthor) : List Char :=
  if str_truthy a.given && str_truthy a.family then
    a.given.getD [] ++ " ".toList ++ a.family.getD []
  else
    py_or_str a.name (py_or_str a.family (py_or_str a.given ("Unknown".toList)))

/-- Embedding of `_parse_date`: `date_parts` is the payload's
"date-parts" value (`none` when the payload dict or the key is missing or
falsy); month and day default to 1; `mk_datetime` stands for the
`datetime(year, month, day, tzinfo=UTC)` constructor, `none` on
`ValueError`. -/
def parse_date (mk_datetime : ℤ → ℤ → ℤ → Option ℤ)
    (date_parts : Option (List (List ℤ))) : Option ℤ :=
  match date_parts with
  | none => none
  | some [] => none
  | some ([] :: _) => none
  | some ((y :: rest) :: _) =>
    mk_datetime y (rest.headD 1) ((rest.drop 1).headD 1)

/-- One decoded item of the Crossref `message.items` payload. -/
structure CrossrefItem where
  title : Option (List (List Char)) := none
  author : Option (List CrossrefAuthor) := none
  published : Option (List (List ℤ)) := none
  issued : Option (List (List ℤ)) := none
  url : Option (List Char) := none
  abstract : Option (List Char) := none
  score : Option ℚ := none
  deriving DecidableEq

/-- An upstream response: HTTP status and the decoded item list. -/
structure HttpResponse where
  status : ℕ
  items : List CrossrefItem
  deriving DecidableEq

/-- The two fatal failures of a per-journal fetch: an empty query
(ValueError before any request) and a non-success HTTP status
(`response.raise_for_status()`). -/
inductive FetchError where
  | invalidQuery
  | httpStatus (status : ℕ)
  deriving DecidableEq

/-- The item normalisation loop body of `fetch_for_journal` (lines
123-142): defaults "Untitled" for a missing or empty title list, parsed
authors, published falling back to issued, cleaned abstract, empty url
default, and Crossref's score. -/
def normalize_item (journal : JournalConfig)
    (clean_abstract : Option (List Char) → Option (List Char))
    (mk_datetime : ℤ → ℤ → ℤ → Option ℤ) (item : CrossrefItem) : Paper :=
  let title_candidates :=
    match item.title with
    | none => ["Untitled".toList]
    | some [] => ["Untitled".toList]
    | some (t :: ts) => t :: ts
  { journal := journal.name
    title := title_candidates.headD []
    url := item.url.getD []
    published := parse_date mk_datetime (item.published.or item.issued)
    authors := (match item.author with | none => [] | some l => l).map parse_author
    summary := clean_abstract item.abstract
    source_score := item.score }

/-- The page size `fetch_for_journal` requests (line 106):
`max(20, min(max_results * 3, 150))`. -/
def rows_requested (max_results : ℕ) : ℕ :=
  max 20 (min (max_results * 3) 150)

/-- Embedding of `CrossrefFetcher.fetch_for_journal`: fail on an empty
space-joined trimmed query, request `rows_requested` rows, fail on a
non-2xx status (`raise_for_status`), else normalise the returned items
and truncate to the first `max_results * 2`.  `days_back` only shapes the
upstream date filter, which the oracle's answer already reflects. -/
def fetch_for_journal (oracle : JournalConfig → List Char → ℕ → HttpResponse)
    (clean_abstract : Option (List Char) → Option (List Char))
    (mk_datetime : ℤ → ℤ → ℤ → Option ℤ) (journal : JournalConfig)
    (keywords : List (List Char)) (days_back : ℤ) (max_results : ℕ) :
    Except FetchError (List Paper) :=
  let query := strip (List.intercalate (" ".toList) keywords)
  if query = [] then .error .invalidQuery
  else
    let resp := oracle journal query (rows_requested max_results)
    if 200 ≤ resp.status ∧ resp.status < 300 then
      .ok ((resp.items.map
        (normalize_item journal clean_abstract mk_datetime)).take
        (max_results * 2))
    else .error (.httpStatus resp.status)

/-- Embedding of `CrossrefFetcher.collect`: every journal is fetched
(`asyncio.gather` without `return_exceptions`), the chunks are
concatenated; the first raised error fails the whole call and no partial
list is returned. -/
def collect (oracle : JournalConfig → List Char → ℕ → HttpResponse)
    (clean_abstract : Option (List Char) → Option (List Char))
    (mk_datetime : ℤ → ℤ → ℤ → Option ℤ) (journals : List JournalConfig)
    (keywords : List (List Char)) (days_back : ℤ) (max_results : ℕ) :
    Except FetchError (List Paper) :=
  match journals with
  | [] => .ok []
  | j :: rest => do
    let chunk ← fetch_for_journal oracle clean_abstract mk_datetime j
      keywords days_back max_results
    let others ← collect oracle clean_abstract mk_datetime rest
      keywords days_back max_results
    pure (chunk ++ others)

theorem collect_cons_eq (oracle : JournalConfig → List Char → ℕ → HttpResponse)
    (clean_abstract : Option (List Char) → Option (List Char))
    (mk_datetime : ℤ → ℤ → ℤ → Option ℤ) (j : JournalConfig)
    (rest : List JournalConfig) (keywords : List (List Char))
    (days_back : ℤ) (max_results : ℕ) :
    collect oracle clean_abstract mk_datetime (j :: rest) keywords days_back
        max_results
      = match fetch_for_journal oracle clean_abstract mk_datetime j keywords
          days_back max_results with
        | .error e => .error e
        | .ok chunk =>
          match collect oracle clean_abstract mk_datetime rest keywords
              days_back max_results with
          | .error e => .error e
          | .ok others => .ok (chunk ++ others) := by
  conv_lhs => rw [collect]
  cases hf : fetch_for_journal oracle clean_abstract mk_datetime j keywords
      days_back max_results with
  | error e => rfl
  | ok chunk =>
    cases hc : collect oracle clean_abstract mk_datetime rest keywords
        days_back max_results with
    | error e => rfl
    | ok others => rfl

theorem fetch_error_of_bad_status
    (oracle : JournalConfig → List Char → ℕ → HttpResponse)
    (clean_abstract : Option (List Char) → Option (List Char))
    (mk_datetime : ℤ → ℤ → ℤ → Option ℤ) (j : JournalConfig)
    (keywords : List (List Char)) (days_back : ℤ) (max_results : ℕ)
    (hbad : ¬(200 ≤ (oracle j (strip (List.intercalate (" ".toList) keywords))
        (rows_requested max_results)).status
      ∧ (oracle j (strip (List.intercalate (" ".toList) keywords))
        (rows_requested max_results)).status < 300)) :
    ∃ e, fetch_for_journal oracle clean_abstract mk_datetime j keywords
        days_back max_results = .error e := by
  unfold fetch_for_journal
  dsimp only
  by_cases hq : strip (List.intercalate (" ".toList) keywords) = []
  · exact ⟨.invalidQuery, by rw [if_pos hq]⟩
  · rw [if_neg hq, if_neg hbad]
    exact ⟨_, rfl⟩

/-! ## C8: one failing journal aborts the whole batch -/

/-- C8: if any journal of the batch answers with a non-success HTTP
status, the whole `collect` call returns an error and no paper list at
all — the successful journals' results are not returned (the result type
carries no list in the error case). -/
theorem collect_aborts_on_http_error :
    ∀ (oracle : JournalConfig → List Char → ℕ → HttpResponse)
      (clean_abstract : Option (List Char) → Option (List Char))
      (mk_datetime : ℤ → ℤ → ℤ → Option ℤ) (journals : List JournalConfig)
      (keywords : List (List Char)) (days_back : ℤ) (max_results : ℕ)
      (j : JournalConfig),
      j ∈ journals →
      ¬(200 ≤ (oracle j (strip (List.intercalate (" ".toList) keywords))
          (rows_requested max_results)).status
        ∧ (oracle j (strip (List.intercalate (" ".toList) keywords))
          (rows_requested max_results)).status < 300) →
      ∃ e, collect oracle clean_abstract mk_datetime journals keywords
          days_back max_results = Except.error e := by
  intro oracle clean_abstract mk_datetime journals keywords days_back
    max_results j hmem hbad
  induction journals with
  | nil => cases hmem
  | cons jh rest ih =>
    rw [collect_cons_eq]
    rcases List.mem_cons.mp hmem with rfl | htail
    · obtain ⟨e, he⟩ := fetch_error_of_bad_status oracle clean_abstract
        mk_datetime j keywords days_back max_results hbad
      rw [he]
      exact ⟨e, rfl⟩
    · cases hf : fetch_for_journal oracle clean_abstract mk_datetime jh
        keywords days_back max_results with
      | error e => exact ⟨e, rfl⟩
      | ok chunk =>
        obtain ⟨e, he⟩ := ih htail
        rw [he]
        exact ⟨e, rfl⟩

/-- Journals for the 3-journal batch scenario. -/
def jA : JournalConfig :=
  { key := "a".toList, name := "A".toList, container_title := "A J".toList }

/-- Second scenario journal: the one whose request fails. -/
def jB : JournalConfig :=
  { key := "b".toList, name := "B".toList, container_title := "B J".toList }

/-- Third scenario journal. -/
def jC : JournalConfig :=
  { key := "c".toList, name := "C".toList, container_title := "C J".toList }

/-- An upstream where journal `jB` answers HTTP 500 and the others answer
HTTP 200 with no items. -/
def oracle500 : JournalConfig → List Char → ℕ → HttpResponse :=
  fun j _ _ =>
    if j.key = "b".toList then { status := 500, items := [] }
    else { status := 200, items := [] }

/-- Witness for C8 at the spec's concrete scenario: 3 journals, one
answering HTTP 500, and the whole batch fails. -/
theorem collect_aborts_witness :
    ∃ e, collect oracle500 (fun a => a) (fun _ _ _ => none) [jA, jB, jC]
        ["x".toList] 30 12 = Except.error e :=
  collect_aborts_on_http_error oracle500 (fun a => a) (fun _ _ _ => none)
    [jA, jB, jC] ["x".toList] 30 12 jB (by decide) (by decide)

/-! ## C10: per-journal truncation to 2 * maxResults -/

/-- C10: a successful per-journal fetch returns at most `2 * maxResults`
papers — the normalised list is truncated to the first `maxResults * 2`
items — even though the upstream request asks for
`clamp(maxResults * 3, 20, 150)` rows. -/
theorem fetch_truncation_bound :
    ∀ (oracle : JournalConfig → List Char → ℕ → HttpResponse)
      (clean_abstract : Option (List Char) → Option (List Char))
      (mk_datetime : ℤ → ℤ → ℤ → Option ℤ) (journal : JournalConfig)
      (keywords : List (List Char)) (days_back : ℤ) (max_results : ℕ)
      (ps : List Paper),
      fetch_for_journal oracle clean_abstract mk_datetime journal keywords
          days_back max_results = Except.ok ps →
      ps.length ≤ 2 * max_results
      ∧ rows_requested max_results = max 20 (min (max_results * 3) 150) := by
  intro oracle clean_abstract mk_datetime journal keywords days_back
    max_results ps h
  refine ⟨?_, rfl⟩
  unfold fetch_for_journal at h
  dsimp only at h
  by_cases hq : strip (List.intercalate (" ".toList) keywords) = []
  · rw [if_pos hq] at h
    cases h
  · rw [if_neg hq] at h
    by_cases hs : 200 ≤ (oracle journal
        (strip (List.intercalate (" ".toList) keywords))
        (rows_requested max_results)).status
      ∧ (oracle journal (strip (List.intercalate (" ".toList) keywords))
        (rows_requested max_results)).status < 300
    · rw [if_pos hs] at h
      injection h with h2
      rw [← h2, List.length_take]
      omega
    · rw [if_neg hs] at h
      cases h

/-- An upstream that answers HTTP 200 with no items. -/
def oracle200 : JournalConfig → List Char → ℕ → HttpResponse :=
  fun _ _ _ => { status := 200, items := [] }

/-- Witness for C10 at a concrete successful fetch. -/
theorem fetch_truncation_witness :
    ([] : List Paper).length ≤ 2 * 12
    ∧ rows_requested 12 = max 20 (min (12 * 3) 150) :=
  fetch_truncation_bound oracle200 (fun a => a) (fun _ _ _ => none) jA
    ["x".toList] 30 12 [] (by rfl)

end GiveLit
